import Mathlib

/-!
# Verification of the cloud-nuke core (inventory building and batched destruction)

Shallow embedding of the Go sources of this repository:

* `aws/aws.go` — `split`, `GetAllResources`, `IsValidResourceType`,
  `IsNukeable`, `NukeAllResources`, `retryDescribeRegions`,
  `OptInNotRequiredRegions`;
* `commands/cli.go` — the validation prefix of `awsNuke`;
* the GCP file — `zoneFromUrl`, `regionFromZone`, `GetAllGceInstances`.

Modelling conventions:

* Go slices become `List`, Go `int` becomes `Int` (no overflow is relevant
  here: all integers involved are small batch sizes and lengths).
* Provider API calls (the per-resource-type list calls, `DescribeRegions`,
  the GCE aggregated list, `time.Parse`) are external collaborators whose
  bodies live outside this repository; they are passed in as explicit
  oracle functions / pre-computed `Except` results.
* `session.NewSession` never fails in any scenario the claims touch; it is
  modelled as infallible.
* Go error values are modelled by their message `String`.
-/

namespace CloudNuke

/-! ## `split` (aws/aws.go)

```go
func split(identifiers []string, limit int) [][]string {
    if limit < 0 {
        limit = -1 * limit
    } else if limit == 0 {
        return [][]string{identifiers}
    }
    var chunk []string
    chunks := make([][]string, 0, len(identifiers)/limit+1)
    for len(identifiers) >= limit {
        chunk, identifiers = identifiers[:limit], identifiers[limit:]
        chunks = append(chunks, chunk)
    }
    if len(identifiers) > 0 {
        chunks = append(chunks, identifiers[:len(identifiers)])
    }
    return chunks
}
```

`splitLoop` is the `for len(identifiers) >= limit` loop together with the
trailing remainder append; it is only ever called with a positive limit
(the `limit == 0` case returns early in `split`). -/

def splitLoop (identifiers : List String) (limit : Nat) : List (List String) :=
  if _h : 0 < limit ∧ limit ≤ identifiers.length then
    identifiers.take limit :: splitLoop (identifiers.drop limit) limit
  else if 0 < identifiers.length then
    [identifiers]
  else
    []
termination_by identifiers.length
decreasing_by
  simp only [List.length_drop]
  omega

def split (identifiers : List String) (limit : Int) : List (List String) :=
  if limit < 0 then
    splitLoop identifiers (-limit).toNat
  else if limit = 0 then
    [identifiers]
  else
    splitLoop identifiers limit.toNat

/-- A concrete list of 25 identifiers, used by the batching scenario of the
spec (`widgets` with 25 identifiers and max batch size 10). -/
def widgets25 : List String :=
  ["w01", "w02", "w03", "w04", "w05", "w06", "w07", "w08", "w09", "w10",
   "w11", "w12", "w13", "w14", "w15", "w16", "w17", "w18", "w19", "w20",
   "w21", "w22", "w23", "w24", "w25"]

/-! ## `NukeAllResources` (aws/aws.go)

```go
func NukeAllResources(account *AwsAccountResources, regions []string) error {
    for _, region := range regions {
        session, err := session.NewSession(...)
        if err != nil { return errors.WithStackTrace(err) }
        resourcesInRegion := account.Resources[region]
        for _, resources := range resourcesInRegion.Resources {
            batches := split(resources.ResourceIdentifiers(), resources.MaxBatchSize())
            for i := 0; i < len(batches); i++ {
                batch := batches[i]
                if err := resources.Nuke(session, batch); err != nil {
                    if strings.Contains(err.Error(), "RequestLimitExceeded") {
                        time.Sleep(1 * time.Minute)
                        continue
                    }
                    return errors.WithStackTrace(err)
                }
                if i != len(batches)-1 { time.Sleep(10 * time.Second) }
            }
        }
    }
    return nil
}
```

The model instruments the executor with a trace: the list of batches for
which a `Nuke` call was issued, in order.  The `error` return value is an
`Option String` (the message of the first terminal error, `none` on a run
that reaches the end).  The two `time.Sleep` calls have no observable
effect in the model.  Note that in the rate-limit branch the Go `continue`
re-enters the `for i` loop header and therefore executes `i++`: control
proceeds with the NEXT batch. -/

/-- Go `strings.Contains s substr`: `substr` occurs as a contiguous
substring of `s`. -/
def goContains (s substr : String) : Bool :=
  (List.range (s.data.length + 1)).any fun i => substr.data.isPrefixOf (s.data.drop i)

/-- The rate-limit classification applied to a `Nuke` error:
`strings.Contains(err.Error(), "RequestLimitExceeded")`. -/
def rateLimited (msg : String) : Bool :=
  goContains msg "RequestLimitExceeded"

/-- One value of the Go `AwsResources` interface: identifier list, declared
maximum batch size, and the (external, effectful) `Nuke` call for one batch,
modelled as a function from the batch to `none` (success) or `some msg`
(error with message `msg`). -/
structure AwsResource where
  resourceIdentifiers : List String
  maxBatchSize : Int
  nuke : List String → Option String

/-- `AwsRegionResource`: the resources of one region, in dependency order. -/
structure AwsRegionResource where
  resources : List AwsResource

/-- `AwsAccountResources`: the Go `map[string]AwsRegionResource`, modelled as
an association list (`NukeAllResources` only ever reads it pointwise). -/
structure AwsAccountResources where
  resources : List (String × AwsRegionResource)

/-- The `for i := 0; i < len(batches); i++` loop of `NukeAllResources` for
one resource: returns the attempted batches in order and the first terminal
(non-rate-limit) error, if any. -/
def nukeBatches (nuke : List String → Option String) :
    List (List String) → List (List String) × Option String
  | [] => ([], none)
  | b :: rest =>
    match nuke b with
    | some msg =>
      if rateLimited msg then
        -- `continue` in a `for i` loop: advance to the next batch.
        let (tr, e) := nukeBatches nuke rest
        (b :: tr, e)
      else
        -- terminal error: `return` aborts the whole function.
        ([b], some msg)
    | none =>
      let (tr, e) := nukeBatches nuke rest
      (b :: tr, e)

/-- The `for _, resources := range resourcesInRegion.Resources` loop. -/
def nukeResourceList : List AwsResource → List (List String) × Option String
  | [] => ([], none)
  | r :: rest =>
    let (tr, e) := nukeBatches r.nuke (split r.resourceIdentifiers r.maxBatchSize)
    match e with
    | some msg => (tr, some msg)
    | none =>
      let (tr2, e2) := nukeResourceList rest
      (tr ++ tr2, e2)

/-- `NukeAllResources`: the outer `for _, region := range regions` loop.
`account.Resources[region]` is a Go map read, yielding the zero value (no
resources) for an absent region. -/
def NukeAllResources (account : AwsAccountResources) :
    List String → List (List String) × Option String
  | [] => ([], none)
  | region :: rest =>
    let inRegion := ((account.resources.lookup region).getD ⟨[]⟩).resources
    let (tr, e) := nukeResourceList inRegion
    match e with
    | some msg => (tr, some msg)
    | none =>
      let (tr2, e2) := NukeAllResources account rest
      (tr ++ tr2, e2)

/-- A resource whose first batch fails with a terminal (non-rate-limit)
error and whose second batch would succeed. -/
def terminalErrorResource : AwsResource where
  resourceIdentifiers := ["a", "b", "c", "d"]
  maxBatchSize := 2
  nuke := fun b => if b = ["a", "b"] then some "AccessDenied" else none

/-- A resource whose first batch always fails with a rate-limit error and
whose second batch succeeds. -/
def rateLimitResource : AwsResource where
  resourceIdentifiers := ["a", "b", "c", "d"]
  maxBatchSize := 2
  nuke := fun b =>
    if b = ["a", "b"] then some "RequestLimitExceeded: slow down" else none

/-! ## `GetAllResources` (aws/aws.go) and the validation prefix of `awsNuke`
(commands/cli.go)

`GetAllResources` iterates the regions, skips the CLI-excluded ones, and for
each of eleven hard-coded resource-type blocks (in dependency order) it
checks `IsNukeable`, invokes the per-type list helper (`getAllEc2Instances`
etc. — defined in per-type files, modelled as one oracle call per block),
aborts the whole build on any list error, and otherwise appends the typed
struct — whether or not its identifier list is empty — to
`resourcesInRegion.Resources`; the region is added to the account map iff
`len(resourcesInRegion.Resources) > 0`.

The eleven blocks are modelled as a fold over an ordered list of
`ResourceTypePlugin`s; each plugin carries the `ResourceName()` string and
its regional-availability guard (`fun _ => true` for every block except
EKS, whose block is wrapped in `if eksSupportedRegion(region)` — that
function lives outside the files in view, so the guard is a parameter).
The model is instrumented with the trace of provider calls made, for the
"before any list call" claims. -/

/-- `collections.ListContainsElement` from gruntwork-cli. -/
def listContainsElement (l : List String) (e : String) : Bool :=
  l.contains e

/-- `IsValidResourceType` (aws/aws.go). -/
def IsValidResourceType (resourceType : String) (allResourceTypes : List String) : Bool :=
  listContainsElement allResourceTypes resourceType

/-- `IsNukeable` (aws/aws.go). -/
def IsNukeable (resourceType : String) (resourceTypes : List String) : Bool :=
  resourceTypes.length == 0 ||
    listContainsElement resourceTypes "all" ||
    listContainsElement resourceTypes resourceType

/-- One of the eleven resource-type blocks of `GetAllResources`: the
`ResourceName()` of its struct and the regional-availability guard of the
block. -/
structure ResourceTypePlugin where
  name : String
  supportedInRegion : String → Bool

/-- The external per-type list call: type name and region to eligible
identifiers (the age filter is applied inside the helper, outside this
repository's code in view) or an error. -/
def ListOracle : Type :=
  String → String → Except String (List String)

/-- Provider calls observable from the claims: the `DescribeRegions`
enumeration and the per-type list calls. -/
inductive AwsEvent where
  | describeRegions : AwsEvent
  | listCall (typeName region : String) : AwsEvent
deriving DecidableEq

/-- The combined guard of one resource-type block: `IsNukeable` on the
block's type name, conjoined with the block's regional-availability guard
(only the EKS block has a non-trivial one). -/
def pluginInvoked (p : ResourceTypePlugin) (resourceTypes : List String)
    (region : String) : Bool :=
  IsNukeable p.name resourceTypes && p.supportedInRegion region

/-- The body of `GetAllResources` for one region: fold over the ordered
resource-type blocks, producing the provider-call trace and either the
first list error or the region's `Resources` sequence (type name paired
with its identifiers, appended even when empty). -/
def buildRegion (oracle : ListOracle) (resourceTypes : List String) (region : String) :
    List ResourceTypePlugin → List AwsEvent × Except String (List (String × List String))
  | [] => ([], .ok [])
  | p :: ps =>
    if pluginInvoked p resourceTypes region then
      match oracle p.name region with
      | .error e => ([.listCall p.name region], .error e)
      | .ok ids =>
        let (tr, rest) := buildRegion oracle resourceTypes region ps
        (.listCall p.name region :: tr,
         match rest with
         | .error e => .error e
         | .ok l => .ok ((p.name, ids) :: l))
    else
      buildRegion oracle resourceTypes region ps

/-- `GetAllResources`: per-region loop.  Returns the provider-call trace
and either the first list error (the Go function then returns `nil` for the
account, i.e. no partial inventory — the `.error` constructor carries no
inventory) or the account map as an association list in region order. -/
def GetAllResources (oracle : ListOracle) (plugins : List ResourceTypePlugin)
    (excludedRegions resourceTypes : List String) :
    List String → List AwsEvent × Except String (List (String × List (String × List String)))
  | [] => ([], .ok [])
  | region :: rest =>
    if listContainsElement excludedRegions region then
      GetAllResources oracle plugins excludedRegions resourceTypes rest
    else
      let (tr, res) := buildRegion oracle resourceTypes region plugins
      match res with
      | .error e => (tr, .error e)
      | .ok inRegion =>
        let (tr2, res2) := GetAllResources oracle plugins excludedRegions resourceTypes rest
        (tr ++ tr2,
         match res2 with
         | .error e => .error e
         | .ok acc => .ok (if inRegion.length > 0 then (region, inRegion) :: acc else acc))

/-- The filter `awsNuke` applies to the operator-supplied `--resource-type`
values: names other than the literal `"all"` that are not registered are
collected (in order) as invalid. -/
def invalidResourceTypes (resourceTypes allResourceTypes : List String) : List String :=
  resourceTypes.filter fun t => !(t == "all") && !(IsValidResourceType t allResourceTypes)

/-- The validation-and-discovery prefix of `awsNuke` (commands/cli.go):
resource-type validation, then `GetEnabledRegions` (an external call,
passed as its `Except` result), then `--exclude-region` validation, then
`GetAllResources`.  The `--list-resource-types` branch, duration parsing,
inventory printing, the confirmation gate and the nuke phase come after the
behavior under verification and are not modelled.  Error values are
modelled by fixed messages. -/
def awsNuke (allResourceTypes : List String) (regionsOracle : Except String (List String))
    (oracle : ListOracle) (plugins : List ResourceTypePlugin)
    (resourceTypes excludedRegions : List String) :
    List AwsEvent × Except String (List (String × List (String × List String))) :=
  if (invalidResourceTypes resourceTypes allResourceTypes).length > 0 then
    ([], .error "Invalid resourceTypes specified")
  else
    match regionsOracle with
    | .error e => ([.describeRegions], .error e)
    | .ok regions =>
      if excludedRegions.any (fun er => !(listContainsElement regions er)) then
        ([.describeRegions], .error "InvalidFlagError: exclude-regions")
      else
        let (tr, res) := GetAllResources oracle plugins excludedRegions resourceTypes regions
        (.describeRegions :: tr, res)

/-! ## `retryDescribeRegions` (aws/aws.go)

```go
func retryDescribeRegions() (*ec2.DescribeRegionsOutput, error) {
    for i := 0; i < len(OptInNotRequiredRegions); i++ {
        region := OptInNotRequiredRegions[rand.Intn(len(OptInNotRequiredRegions))]
        svc := ec2.New(newSession(region))
        regions, err := svc.DescribeRegions(&ec2.DescribeRegionsInput{})
        if err != nil { continue }
        return regions, nil
    }
    return nil, errors.WithStackTrace(fmt.Errorf("could not find any enabled regions"))
}
```

The random draws `rand.Intn(len(OptInNotRequiredRegions))` are modelled as
a sequence `picks` of in-range indices (one per loop iteration `i`); the
`DescribeRegions` probe is an oracle `probe : String → Bool` (`true` =
call succeeded; the successful region stands in for its output).  The model
returns the trace of probed regions in order, and the result. -/

/-- The hardcoded enabled-by-default region list (aws/aws.go). -/
def OptInNotRequiredRegions : List String :=
  ["eu-north-1", "ap-south-1", "eu-west-3", "eu-west-2", "eu-west-1",
   "ap-northeast-2", "ap-northeast-1", "sa-east-1", "ca-central-1",
   "ap-southeast-1", "ap-southeast-2", "eu-central-1", "us-east-1",
   "us-east-2", "us-west-1", "us-west-2"]

/-- The `for i := 0; i < len(OptInNotRequiredRegions); i++` loop, iterated
over the remaining values of `i`. -/
def retryDescribeRegionsLoop (probe : String → Bool)
    (picks : Nat → Fin OptInNotRequiredRegions.length) :
    List Nat → List String × Except String String
  | [] => ([], .error "could not find any enabled regions")
  | i :: rest =>
    let region := OptInNotRequiredRegions.get (picks i)
    if probe region then
      ([region], .ok region)
    else
      let (tr, res) := retryDescribeRegionsLoop probe picks rest
      (region :: tr, res)

def retryDescribeRegions (probe : String → Bool)
    (picks : Nat → Fin OptInNotRequiredRegions.length) :
    List String × Except String String :=
  retryDescribeRegionsLoop probe picks (List.range OptInNotRequiredRegions.length)

/-- A random source that always draws index 0 (`"eu-north-1"`). -/
def alwaysFirstPick : Nat → Fin OptInNotRequiredRegions.length :=
  fun _ => ⟨0, by decide⟩

/-! ## The GCP file: `zoneFromUrl`, `regionFromZone`, `GetAllGceInstances`

```go
func zoneFromUrl(url string) (string, error) {
    split := strings.Split(url, "/")
    if len(split) == 0 {
        return "", errors.New("got invalid zone url: " + url)
    }
    return split[len(split)-1], nil
}
```
-/

/-- Go `strings.Split` for a one-character separator, at the character-list
level: `strings.Split("", "/") = [""]`, `strings.Split("a/b/", "/") =
["a", "b", ""]`. -/
def goSplitChar (sep : Char) : List Char → List (List Char)
  | [] => [[]]
  | c :: cs =>
    if c = sep then
      [] :: goSplitChar sep cs
    else
      match goSplitChar sep cs with
      | [] => [[c]]
      | g :: gs => (c :: g) :: gs

/-- `strings.Split(s, "/")` at the `String` level. -/
def goSplitSlash (s : String) : List String :=
  (goSplitChar '/' s.data).map (fun l => String.mk l)

/-- `zoneFromUrl`: index `len(split)-1` is modelled as `getLast`. -/
def zoneFromUrl (url : String) : Except String String :=
  let split := goSplitSlash url
  if h : split.length = 0 then
    .error ("got invalid zone url: " ++ url)
  else
    .ok (split.getLast (List.length_pos.mp (Nat.pos_of_ne_zero h)))

/-- Reference meaning of `zoneFromUrl`: the suffix of `l` after the last
occurrence of `sep`, or `l` itself when `sep` does not occur. -/
def afterLastChar (sep : Char) : List Char → List Char
  | [] => []
  | c :: cs =>
    if sep ∈ cs then afterLastChar sep cs
    else if c = sep then cs
    else c :: cs

def afterLastSlash (s : String) : String :=
  String.mk (afterLastChar '/' s.data)

/-! ### `GetAllGceInstances` -/

/-- One entry of `GcpContext.Regions`. -/
structure GcpRegion where
  name : String
  zones : List String

/-- The part of `GcpContext` that `regionFromZone` reads. -/
structure GcpContext where
  regions : List GcpRegion

/-- One `apiInstance` from the aggregated list. -/
structure GcpApiInstance where
  name : String
  zone : String
  deletionProtection : Bool
  creationTimestamp : String

/-- The `GceInstanceResource` built for each kept instance. -/
structure GceInstanceResource where
  instanceName : String
  zone : String
  regionName : String
deriving DecidableEq

/-- `time.Parse(time.RFC3339, ·)`, an external library call: timestamps map
to instants on an integer time line, or to a parse error. -/
def TimeParser : Type :=
  String → Except String Int

/-- The inner `for _, regionZoneUrl := range region.Zones` loop of
`regionFromZone`. -/
def zoneMatch (zone : String) : List String → Except String Bool
  | [] => .ok false
  | url :: rest =>
    match zoneFromUrl url with
    | .error e => .error e
    | .ok regionZone => if zone = regionZone then .ok true else zoneMatch zone rest

def regionFromZoneLoop (zone : String) : List GcpRegion → Except String String
  | [] => .error ("could not get region for zone: " ++ zone)
  | r :: rest =>
    match zoneMatch zone r.zones with
    | .error e => .error e
    | .ok true => .ok r.name
    | .ok false => regionFromZoneLoop zone rest

def regionFromZone (ctx : GcpContext) (zone : String) : Except String String :=
  regionFromZoneLoop zone ctx.regions

/-- The `for _, apiInstance := range item.Instances` loop of
`GetAllGceInstances`. -/
def processInstances (parse : TimeParser) (ctx : GcpContext)
    (excludedRegions : List String) (excludeAfter : Int) :
    List GcpApiInstance → Except String (List GceInstanceResource)
  | [] => .ok []
  | inst :: rest =>
    if inst.deletionProtection then
      -- "skip if deletion protection is turned on"
      processInstances parse ctx excludedRegions excludeAfter rest
    else
      match zoneFromUrl inst.zone with
      | .error e => .error e
      | .ok zone =>
        match regionFromZone ctx zone with
        | .error e => .error e
        | .ok region =>
          -- The Go source here runs
          --   for _, excludedRegion := range excludedRegions {
          --       if region == excludedRegion { continue }
          --   }
          -- The `continue` targets this inner loop, whose body contains
          -- nothing after it, so the loop changes nothing: no instance is
          -- skipped for being in an excluded region.  It is embedded as
          -- the no-op it is.
          match parse inst.creationTimestamp with
          | .error e => .error e
          | .ok creationTime =>
            if excludeAfter < creationTime then
              -- "skip if created after the given time" (creationTime.After)
              processInstances parse ctx excludedRegions excludeAfter rest
            else
              match processInstances parse ctx excludedRegions excludeAfter rest with
              | .error e => .error e
              | .ok l => .ok (⟨inst.name, zone, region⟩ :: l)

/-- The outer `for _, item := range apiInstances.Items` loop. -/
def processItems (parse : TimeParser) (ctx : GcpContext)
    (excludedRegions : List String) (excludeAfter : Int) :
    List (List GcpApiInstance) → Except String (List GceInstanceResource)
  | [] => .ok []
  | item :: rest =>
    match processInstances parse ctx excludedRegions excludeAfter item with
    | .error e => .error e
    | .ok l1 =>
      match processItems parse ctx excludedRegions excludeAfter rest with
      | .error e => .error e
      | .ok l2 => .ok (l1 ++ l2)

/-- `GetAllGceInstances`; the aggregated-list API call result is passed in
pre-computed. -/
def GetAllGceInstances (parse : TimeParser) (ctx : GcpContext)
    (excludedRegions : List String) (excludeAfter : Int)
    (apiResult : Except String (List (List GcpApiInstance))) :
    Except String (List GceInstanceResource) :=
  match apiResult with
  | .error e => .error e
  | .ok items => processItems parse ctx excludedRegions excludeAfter items

/-! ## Lemmas and claim theorems -/

lemma splitLoop_join (limit : Nat) (hl : 0 < limit) :
    ∀ (fuel : Nat) (ids : List String), ids.length ≤ fuel →
      (splitLoop ids limit).flatten = ids := by
  intro fuel
  induction fuel with
  | zero =>
    intro ids hle
    have hids : ids = [] := List.length_eq_zero.mp (Nat.le_zero.mp hle)
    subst hids
    have hc : ¬ (0 < limit ∧ limit ≤ ([] : List String).length) := by
      simp only [List.length_nil]
      omega
    rw [splitLoop, dif_neg hc]
    simp
  | succ n ih =>
    intro ids hle
    rw [splitLoop]
    by_cases hc : 0 < limit ∧ limit ≤ ids.length
    · have hdrop : (ids.drop limit).length ≤ n := by
        simp only [List.length_drop]
        omega
      rw [dif_pos hc, List.flatten_cons, ih (ids.drop limit) hdrop]
      exact List.take_append_drop limit ids
    · rw [dif_neg hc]
      by_cases hp : 0 < ids.length
      · simp [hp]
      · have hids : ids = [] := List.length_eq_zero.mp (by omega)
        simp [hids]

lemma splitLoop_length_le (limit : Nat) (hl : 0 < limit) :
    ∀ (fuel : Nat) (ids : List String), ids.length ≤ fuel →
      ∀ b ∈ splitLoop ids limit, b.length ≤ limit := by
  intro fuel
  induction fuel with
  | zero =>
    intro ids hle b hb
    have hids : ids = [] := List.length_eq_zero.mp (Nat.le_zero.mp hle)
    subst hids
    have hc : ¬ (0 < limit ∧ limit ≤ ([] : List String).length) := by
      simp only [List.length_nil]
      omega
    rw [splitLoop, dif_neg hc] at hb
    simp at hb
  | succ n ih =>
    intro ids hle b hb
    rw [splitLoop] at hb
    by_cases hc : 0 < limit ∧ limit ≤ ids.length
    · rw [dif_pos hc] at hb
      rcases List.mem_cons.mp hb with hb | hb
      · subst hb
        exact List.length_take_le limit ids
      · have hdrop : (ids.drop limit).length ≤ n := by
          simp only [List.length_drop]
          omega
        exact ih (ids.drop limit) hdrop b hb
    · rw [dif_neg hc] at hb
      by_cases hp : 0 < ids.length
      · rw [if_pos hp] at hb
        have hb' : b = ids := List.mem_singleton.mp hb
        subst hb'
        omega
      · rw [if_neg hp] at hb
        simp at hb

lemma split_join {ids : List String} {n : Int} (hn : 0 < n) :
    (split ids n).flatten = ids := by
  unfold split
  have h1 : ¬ n < 0 := by omega
  have h2 : n ≠ 0 := by omega
  simp only [h1, if_neg, not_false_iff, h2, if_neg]
  exact splitLoop_join n.toNat (by omega) ids.length ids le_rfl

lemma split_batch_le {ids : List String} {n : Int} (hn : 0 < n) :
    ∀ b ∈ split ids n, (b.length : Int) ≤ n := by
  intro b hb
  unfold split at hb
  have h1 : ¬ n < 0 := by omega
  have h2 : n ≠ 0 := by omega
  simp only [h1, if_neg, not_false_iff, h2, if_neg] at hb
  have := splitLoop_length_le n.toNat (by omega) ids.length ids le_rfl b hb
  omega

lemma split_zero (ids : List String) : split ids 0 = [ids] := by
  unfold split
  norm_num

/-- C6: for every identifier list `ids` and every `n > 0`, concatenating the
batches of `split ids n` in order yields exactly `ids` and every batch has
length at most `n`; `split ids 0 = [ids]`; and a list of 25 identifiers with
`n = 10` splits into exactly three batches of sizes 10, 10 and 5. -/
theorem split_batching_correct (ids : List String) (n : Int) (hn : 0 < n) :
    (split ids n).flatten = ids ∧
    (∀ b ∈ split ids n, (b.length : Int) ≤ n) ∧
    split ids 0 = [ids] ∧
    (split widgets25 10).map List.length = [10, 10, 5] := by
  refine ⟨split_join hn, split_batch_le hn, split_zero ids, ?_⟩
  simp [widgets25, split, splitLoop]

theorem split_batching_correct_witness :
    (split ["a", "b", "c"] 2).flatten = ["a", "b", "c"] ∧
    (∀ b ∈ split ["a", "b", "c"] 2, (b.length : Int) ≤ 2) ∧
    split ["a", "b", "c"] 0 = [["a", "b", "c"]] ∧
    (split widgets25 10).map List.length = [10, 10, 5] :=
  split_batching_correct ["a", "b", "c"] 2 (by norm_num)

/-- C5 counterexample: `split` with the negative limit `-2` does NOT return a
single batch containing everything; it batches by the absolute value. -/
theorem split_negative_limit_cex :
    split ["a", "b", "c"] (-2) = [["a", "b"], ["c"]] ∧
    split ["a", "b", "c"] (-2) ≠ [["a", "b", "c"]] := by
  constructor
  · simp [split, splitLoop]
  · simp [split, splitLoop]

/-- C5 amended: `split ids 0` is the single batch `[ids]`; a negative limit is
not treated as "no batching limit" but behaves exactly like its absolute
value. -/
theorem split_nonpositive_limit (ids : List String) (limit : Int) :
    split ids 0 = [ids] ∧
    (limit < 0 → split ids limit = split ids (-limit)) := by
  refine ⟨split_zero ids, fun hneg => ?_⟩
  unfold split
  have h1 : ¬ (-limit) < 0 := by omega
  have h2 : (-limit) ≠ 0 := by omega
  simp only [hneg, if_pos, h1, if_neg, not_false_iff, h2]

theorem split_nonpositive_limit_witness :
    split ["a", "b", "c"] 0 = [["a", "b", "c"]] ∧
    ((-2 : Int) < 0 → split ["a", "b", "c"] (-2) = split ["a", "b", "c"] 2) :=
  split_nonpositive_limit ["a", "b", "c"] (-2)

/-- C1 counterexample: with two batches where batch 1 (`["a","b"]`) fails
terminally and batch 2 (`["c","d"]`) would succeed, `NukeAllResources`
returns the batch-1 error immediately: batch 2 is never attempted, so the
claim that the executor "still attempts batch 2" and accumulates errors is
false on the code. -/
theorem nuke_terminal_error_cex :
    NukeAllResources ⟨[("us-east-1", ⟨[terminalErrorResource]⟩)]⟩ ["us-east-1"]
      = ([["a", "b"]], some "AccessDenied") ∧
    ["c", "d"] ∉
      (NukeAllResources ⟨[("us-east-1", ⟨[terminalErrorResource]⟩)]⟩ ["us-east-1"]).1 := by
  have hsplit : split ["a", "b", "c", "d"] 2 = [["a", "b"], ["c", "d"]] := by
    simp [split, splitLoop]
  have hrl : rateLimited "AccessDenied" = false := by decide
  refine ⟨?_, ?_⟩ <;>
    simp [NukeAllResources, nukeResourceList, terminalErrorResource, hsplit, nukeBatches, hrl]

/-- C1 amended: for every inventory in which a resource type has two batches
where the delete call for batch 1 returns a terminal (non-rate-limit) error
and the delete call for batch 2 would succeed, `NukeAllResources` returns
the batch-1 error immediately as its single result: batch 2 is not
attempted, and neither are any sibling resource types or regions. -/
theorem nuke_terminal_error_aborts
    (r : AwsResource) (rs : List AwsResource) (region : String)
    (restAccount : List (String × AwsRegionResource)) (restRegions : List String)
    (b1 b2 : List String) (msg : String)
    (hsplit : split r.resourceIdentifiers r.maxBatchSize = [b1, b2])
    (h1 : r.nuke b1 = some msg)
    (hterm : rateLimited msg = false)
    (_h2 : r.nuke b2 = none) :
    NukeAllResources ⟨(region, ⟨r :: rs⟩) :: restAccount⟩ (region :: restRegions)
      = ([b1], some msg) := by
  simp [NukeAllResources, nukeResourceList, hsplit, nukeBatches, h1, hterm]

theorem nuke_terminal_error_aborts_witness :
    NukeAllResources ⟨[("us-west-2", ⟨[terminalErrorResource]⟩)]⟩ ["us-west-2"]
      = ([["a", "b"]], some "AccessDenied") :=
  nuke_terminal_error_aborts terminalErrorResource [] "us-west-2" [] []
    ["a", "b"] ["c", "d"] "AccessDenied"
    (by simp [terminalErrorResource, split, splitLoop])
    (by decide) (by decide) (by decide)

/-- C2 counterexample: when the delete call for batch 1 (`["a","b"]`)
returns a rate-limit error, `NukeAllResources` does not retry batch 1: the
`continue` re-enters the `for i` loop header, so the very next attempt is
batch 2 (`["c","d"]`) and batch 1 is attempted exactly once, i.e. it is
dropped — the claim that the same batch is retried is false on the code. -/
theorem nuke_rate_limit_cex :
    NukeAllResources ⟨[("us-east-1", ⟨[rateLimitResource]⟩)]⟩ ["us-east-1"]
      = ([["a", "b"], ["c", "d"]], none) ∧
    (NukeAllResources ⟨[("us-east-1", ⟨[rateLimitResource]⟩)]⟩ ["us-east-1"]).1.count
      ["a", "b"] = 1 := by
  have hsplit : split ["a", "b", "c", "d"] 2 = [["a", "b"], ["c", "d"]] := by
    simp [split, splitLoop]
  have hrl : rateLimited "RequestLimitExceeded: slow down" = true := by decide
  refine ⟨?_, ?_⟩ <;>
    simp [NukeAllResources, nukeResourceList, rateLimitResource, hsplit, nukeBatches, hrl,
      List.count_cons]

/-- C2 amended: when the delete call for batch 1 returns a rate-limit error,
`NukeAllResources` sleeps and then advances to batch 2 — batch 1 is dropped
and never retried — and the rate-limit error is not recorded as a terminal
failure (the run's error result is `none` when the remaining batch
succeeds). -/
theorem nuke_rate_limit_advances
    (r : AwsResource) (region : String)
    (b1 b2 : List String) (msg : String)
    (hsplit : split r.resourceIdentifiers r.maxBatchSize = [b1, b2])
    (h1 : r.nuke b1 = some msg)
    (hrl : rateLimited msg = true)
    (h2 : r.nuke b2 = none) :
    NukeAllResources ⟨[(region, ⟨[r]⟩)]⟩ [region] = ([b1, b2], none) := by
  simp [NukeAllResources, nukeResourceList, hsplit, nukeBatches, h1, hrl, h2]

theorem nuke_rate_limit_advances_witness :
    NukeAllResources ⟨[("us-west-2", ⟨[rateLimitResource]⟩)]⟩ ["us-west-2"]
      = ([["a", "b"], ["c", "d"]], none) :=
  nuke_rate_limit_advances rateLimitResource "us-west-2"
    ["a", "b"] ["c", "d"] "RequestLimitExceeded: slow down"
    (by simp [rateLimitResource, split, splitLoop])
    (by decide) (by decide) (by decide)

/-- C9 counterexample: with a random source that always draws index 0 and a
probe that fails on `"eu-north-1"` but would succeed on `"ap-south-1"`, the
loop probes the same candidate 16 times — not at most once per candidate —
and returns the exhaustion error even though the candidate `"ap-south-1"`
was never tried. -/
theorem retryDescribeRegions_cex :
    (retryDescribeRegions (fun r => r == "ap-south-1") alwaysFirstPick).2
      = .error "could not find any enabled regions" ∧
    (retryDescribeRegions (fun r => r == "ap-south-1") alwaysFirstPick).1.count
      "eu-north-1" = 16 ∧
    "ap-south-1" ∉ (retryDescribeRegions (fun r => r == "ap-south-1") alwaysFirstPick).1 ∧
    (fun r => r == "ap-south-1") "ap-south-1" = true := by
  refine ⟨rfl, by decide, by decide, by decide⟩

lemma retryDescribeRegionsLoop_spec (probe : String → Bool)
    (picks : Nat → Fin OptInNotRequiredRegions.length) :
    ∀ (idxs : List Nat) (tr : List String) (res : Except String String),
      retryDescribeRegionsLoop probe picks idxs = (tr, res) →
      tr.length ≤ idxs.length ∧
      (∀ r ∈ tr, r ∈ OptInNotRequiredRegions) ∧
      ((∃ pre r, tr = pre ++ [r] ∧ res = .ok r ∧ probe r = true ∧
          ∀ x ∈ pre, probe x = false) ∨
       (res = .error "could not find any enabled regions" ∧ tr.length = idxs.length ∧
        ∀ x ∈ tr, probe x = false)) := by
  intro idxs
  induction idxs with
  | nil =>
    intro tr res h
    rw [retryDescribeRegionsLoop] at h
    injection h with h1 h2
    subst h1
    subst h2
    refine ⟨Nat.le_refl _, by simp, Or.inr ⟨rfl, rfl, by simp⟩⟩
  | cons i rest ih =>
    intro tr res h
    rw [retryDescribeRegionsLoop] at h
    by_cases hp : probe (OptInNotRequiredRegions.get (picks i)) = true
    · rw [if_pos hp] at h
      injection h with h1 h2
      subst h1
      subst h2
      refine ⟨by simp, ?_, Or.inl ⟨[], _, by simp, rfl, hp, by simp⟩⟩
      intro r hr
      rw [List.mem_singleton.mp hr]
      exact List.get_mem OptInNotRequiredRegions _ _
    · rw [if_neg hp] at h
      rcases hrec : retryDescribeRegionsLoop probe picks rest with ⟨tr', res'⟩
      rw [hrec] at h
      injection h with h1 h2
      subst h1
      subst h2
      obtain ⟨hlen, hmem, hcases⟩ := ih tr' res' hrec
      refine ⟨by simpa using Nat.succ_le_succ hlen, ?_, ?_⟩
      · intro r hr
        rcases List.mem_cons.mp hr with rfl | hr'
        · exact List.get_mem OptInNotRequiredRegions _ _
        · exact hmem r hr'
      · rcases hcases with ⟨pre, r, htr, hok, hpr, hpre⟩ | ⟨herr, hlen', hall⟩
        · refine Or.inl ⟨OptInNotRequiredRegions.get (picks i) :: pre, r, by simp [htr],
            hok, hpr, ?_⟩
          intro x hx
          rcases List.mem_cons.mp hx with rfl | hx'
          · simpa using hp
          · exact hpre x hx'
        · refine Or.inr ⟨herr, by simpa using hlen', ?_⟩
          intro x hx
          rcases List.mem_cons.mp hx with rfl | hx'
          · simpa using hp
          · exact hall x hx'

/-- C9 amended: `retryDescribeRegions` makes at most
`len(OptInNotRequiredRegions) = 16` probe attempts, each against a
candidate drawn (with replacement — possibly repeating) from the hardcoded
list; it succeeds as soon as one probe succeeds (the last probed candidate,
all earlier ones having failed); and it returns the exhaustion error
exactly after 16 failed probes, even when some candidates were never
tried. -/
theorem retryDescribeRegions_probes_with_replacement (probe : String → Bool)
    (picks : Nat → Fin OptInNotRequiredRegions.length) :
    (retryDescribeRegions probe picks).1.length ≤ OptInNotRequiredRegions.length ∧
    (∀ r ∈ (retryDescribeRegions probe picks).1, r ∈ OptInNotRequiredRegions) ∧
    ((∃ pre r, (retryDescribeRegions probe picks).1 = pre ++ [r] ∧
        (retryDescribeRegions probe picks).2 = .ok r ∧ probe r = true ∧
        ∀ x ∈ pre, probe x = false) ∨
     ((retryDescribeRegions probe picks).2
        = .error "could not find any enabled regions" ∧
      (retryDescribeRegions probe picks).1.length = OptInNotRequiredRegions.length ∧
      ∀ x ∈ (retryDescribeRegions probe picks).1, probe x = false)) := by
  have h := retryDescribeRegionsLoop_spec probe picks
    (List.range OptInNotRequiredRegions.length)
    (retryDescribeRegions probe picks).1 (retryDescribeRegions probe picks).2
    (by rw [retryDescribeRegions])
  simpa using h

lemma buildRegion_error_of_mem (oracle : ListOracle) (resourceTypes : List String)
    (region : String) (plugins : List ResourceTypePlugin) (p : ResourceTypePlugin)
    (e : String) (hp : p ∈ plugins)
    (hinv : pluginInvoked p resourceTypes region = true)
    (herr : oracle p.name region = .error e) :
    ∃ e', (buildRegion oracle resourceTypes region plugins).2 = .error e' := by
  induction plugins with
  | nil => cases hp
  | cons q qs ih =>
    rcases List.mem_cons.mp hp with rfl | hp'
    · rw [buildRegion, if_pos hinv, herr]
      exact ⟨e, rfl⟩
    · rw [buildRegion]
      by_cases hq : pluginInvoked q resourceTypes region
      · rw [if_pos hq]
        cases horacle : oracle q.name region with
        | error e2 => exact ⟨e2, rfl⟩
        | ok ids =>
          obtain ⟨e', he'⟩ := ih hp'
          rcases hbr : buildRegion oracle resourceTypes region qs with ⟨tr, res⟩
          rw [hbr] at he'
          simp only at he'
          subst he'
          exact ⟨e', by simp [hbr]⟩
      · rw [if_neg hq]
        exact ih hp'

lemma buildRegion_ok_of_forall (oracle : ListOracle) (resourceTypes : List String)
    (region : String) (plugins : List ResourceTypePlugin)
    (f : ResourceTypePlugin → List String)
    (hok : ∀ p ∈ plugins, pluginInvoked p resourceTypes region = true →
      oracle p.name region = .ok (f p)) :
    (buildRegion oracle resourceTypes region plugins).2 =
      .ok ((plugins.filter (fun p => pluginInvoked p resourceTypes region)).map
        (fun p => (p.name, f p))) := by
  induction plugins with
  | nil => rfl
  | cons q qs ih =>
    have ih' := ih (fun p hp hi => hok p (List.mem_cons_of_mem q hp) hi)
    rw [buildRegion]
    by_cases hq : pluginInvoked q resourceTypes region
    · rw [if_pos hq, hok q (List.mem_cons_self q qs) hq]
      rcases hbr : buildRegion oracle resourceTypes region qs with ⟨tr, res⟩
      rw [hbr] at ih'
      simp only at ih'
      subst ih'
      simp [List.filter_cons, hq]
    · rw [if_neg hq]
      rw [ih']
      simp [List.filter_cons, hq]

/-- C7: if, for any non-excluded region in the region list, any enabled
(and regionally available) resource-type block's list call fails, then
`GetAllResources` returns an error — and by construction of the model the
`.error` result carries no inventory at all (the build is all-or-nothing). -/
theorem getAllResources_list_failure_aborts (oracle : ListOracle)
    (plugins : List ResourceTypePlugin) (excludedRegions resourceTypes : List String)
    (regions : List String) (region : String) (p : ResourceTypePlugin) (e : String)
    (hr : region ∈ regions)
    (hnex : listContainsElement excludedRegions region = false)
    (hp : p ∈ plugins)
    (hinv : pluginInvoked p resourceTypes region = true)
    (herr : oracle p.name region = .error e) :
    ∃ e', (GetAllResources oracle plugins excludedRegions resourceTypes regions).2
      = .error e' := by
  induction regions with
  | nil => cases hr
  | cons r rs ih =>
    rw [GetAllResources]
    by_cases hex : listContainsElement excludedRegions r = true
    · rw [if_pos hex]
      rcases List.mem_cons.mp hr with rfl | hr'
      · rw [hnex] at hex
        cases hex
      · exact ih hr'
    · rw [if_neg hex]
      rcases hbr : buildRegion oracle resourceTypes r plugins with ⟨tr, res⟩
      cases res with
      | error e2 => exact ⟨e2, rfl⟩
      | ok inRegion =>
        rcases hga : GetAllResources oracle plugins excludedRegions resourceTypes rs
          with ⟨tr2, res2⟩
        rcases List.mem_cons.mp hr with rfl | hr'
        · obtain ⟨e', he'⟩ :=
            buildRegion_error_of_mem oracle resourceTypes region plugins p e hp hinv herr
          rw [hbr] at he'
          simp at he'
        · obtain ⟨e', he'⟩ := ih hr'
          rw [hga] at he'
          simp only at he'
          subst he'
          exact ⟨e', by simp [hga]⟩

theorem getAllResources_list_failure_aborts_witness :
    ∃ e', (GetAllResources
        (fun _ _ => .error "rate limit while listing")
        [⟨"ec2", fun _ => true⟩] [] [] ["us-east-1"]).2 = .error e' :=
  getAllResources_list_failure_aborts
    (fun _ _ => .error "rate limit while listing")
    [⟨"ec2", fun _ => true⟩] [] [] ["us-east-1"] "us-east-1"
    ⟨"ec2", fun _ => true⟩ "rate limit while listing"
    (List.mem_singleton.mpr rfl) rfl (List.mem_singleton.mpr rfl) rfl rfl

/-- C4 counterexample: one region `"a"`, one enabled resource-type block
`"ec2"` whose list call returns zero identifiers.  The block is still
appended to the region's entry (as `("ec2", [])`), and the region still
appears in the inventory — the claim that empty types and empty regions are
omitted is false on the code. -/
theorem getAllResources_zero_ids_cex :
    (GetAllResources (fun _ _ => .ok []) [⟨"ec2", fun _ => true⟩] [] [] ["a"]).2
      = .ok [("a", [("ec2", [])])] ∧
    (GetAllResources (fun _ _ => .ok []) [⟨"ec2", fun _ => true⟩] [] [] ["a"]).2
      ≠ .ok [] := by
  constructor
  · rfl
  · intro h
    rw [show (GetAllResources (fun _ _ => .ok []) [⟨"ec2", fun _ => true⟩] [] [] ["a"]).2
        = Except.ok [("a", [("ec2", ([] : List String))])] from rfl] at h
    simp at h

/-- C4 amended: a resource-type block whose list call succeeds is appended
to its region's entry even with zero identifiers; consequently a region is
present in the inventory if and only if at least one block was invoked
there (the `len(resourcesInRegion.Resources) > 0` check), not if some block
returned identifiers. -/
theorem getAllResources_zero_ids_included (oracle : ListOracle)
    (plugins : List ResourceTypePlugin) (region : String)
    (resourceTypes : List String) (f : ResourceTypePlugin → List String)
    (hok : ∀ p ∈ plugins, pluginInvoked p resourceTypes region = true →
      oracle p.name region = .ok (f p)) :
    (GetAllResources oracle plugins [] resourceTypes [region]).2 =
      .ok (if 0 < (plugins.filter (fun p => pluginInvoked p resourceTypes region)).length
           then [(region,
             (plugins.filter (fun p => pluginInvoked p resourceTypes region)).map
               (fun p => (p.name, f p)))]
           else []) := by
  have hb := buildRegion_ok_of_forall oracle resourceTypes region plugins f hok
  rw [GetAllResources]
  rw [if_neg (by simp [listContainsElement])]
  rcases hbr : buildRegion oracle resourceTypes region plugins with ⟨tr, res⟩
  rw [hbr] at hb
  simp only at hb
  subst hb
  simp [GetAllResources, List.length_map]

theorem getAllResources_zero_ids_included_witness :
    (GetAllResources (fun _ _ => .ok []) [⟨"ec2", fun _ => true⟩] [] [] ["a"]).2 =
      .ok (if 0 < (([⟨"ec2", fun _ => true⟩] :
              List ResourceTypePlugin).filter (fun p => pluginInvoked p [] "a")).length
           then [("a",
             (([⟨"ec2", fun _ => true⟩] :
               List ResourceTypePlugin).filter (fun p => pluginInvoked p [] "a")).map
               (fun p => (p.name, [])))]
           else []) :=
  getAllResources_zero_ids_included (fun _ _ => .ok [])
    [⟨"ec2", fun _ => true⟩] "a" [] (fun _ => [])
    (fun _ _ _ => rfl)

/-- C8: an operator-supplied resource-type filter containing a name other
than `"all"` that is not in the registry's canonical list makes `awsNuke`
fail with the configuration error before any provider call (empty event
trace: no region enumeration, no list call); if every supplied name is
`"all"` or registered (in particular if the filter is empty), validation
passes and discovery proceeds, beginning with region enumeration. -/
theorem awsNuke_validates_resource_types (allResourceTypes : List String)
    (regionsOracle : Except String (List String)) (oracle : ListOracle)
    (plugins : List ResourceTypePlugin) (resourceTypes excludedRegions : List String) :
    ((∃ t ∈ resourceTypes, t ≠ "all" ∧ IsValidResourceType t allResourceTypes = false) →
      awsNuke allResourceTypes regionsOracle oracle plugins resourceTypes excludedRegions
        = ([], .error "Invalid resourceTypes specified")) ∧
    ((∀ t ∈ resourceTypes, t = "all" ∨ IsValidResourceType t allResourceTypes = true) →
      (awsNuke allResourceTypes regionsOracle oracle plugins resourceTypes
        excludedRegions).1.head? = some .describeRegions) := by
  constructor
  · rintro ⟨t, ht, htall, htvalid⟩
    have hmem : t ∈ invalidResourceTypes resourceTypes allResourceTypes := by
      rw [invalidResourceTypes, List.mem_filter]
      refine ⟨ht, ?_⟩
      rw [htvalid]
      simp [htall]
    have hpos : (invalidResourceTypes resourceTypes allResourceTypes).length > 0 :=
      List.length_pos.mpr (List.ne_nil_of_mem hmem)
    unfold awsNuke
    rw [if_pos hpos]
  · intro hvalid
    have hnil : invalidResourceTypes resourceTypes allResourceTypes = [] := by
      rw [invalidResourceTypes, List.filter_eq_nil_iff]
      intro t ht
      rcases hvalid t ht with rfl | hv
      · simp
      · simp [hv]
    unfold awsNuke
    rw [hnil]
    simp only [List.length_nil, Nat.lt_irrefl, if_neg, not_false_iff, gt_iff_lt]
    cases regionsOracle with
    | error e => rfl
    | ok regions =>
      by_cases hex : excludedRegions.any (fun er => !(listContainsElement regions er))
      · simp [hex]
      · simp only [hex, Bool.false_eq_true, if_neg, not_false_iff]
        rcases hga : GetAllResources oracle plugins excludedRegions resourceTypes regions
          with ⟨tr, res⟩
        simp [hga]

lemma goSplitChar_ne_nil (sep : Char) : ∀ l : List Char, goSplitChar sep l ≠ [] := by
  intro l
  cases l with
  | nil => simp [goSplitChar]
  | cons c cs =>
    rw [goSplitChar]
    by_cases hc : c = sep
    · simp [hc]
    · rw [if_neg hc]
      cases goSplitChar sep cs with
      | nil => simp
      | cons g gs => simp

lemma goSplitChar_of_not_mem (sep : Char) :
    ∀ l : List Char, sep ∉ l → goSplitChar sep l = [l] := by
  intro l
  induction l with
  | nil => intro _; rfl
  | cons c cs ih =>
    intro hmem
    have hc : ¬ c = sep := fun h => hmem (h ▸ List.mem_cons_self c cs)
    have hcs : sep ∉ cs := fun h => hmem (List.mem_cons_of_mem c h)
    rw [goSplitChar, if_neg hc, ih hcs]

lemma goSplitChar_two_le_of_mem (sep : Char) :
    ∀ l : List Char, sep ∈ l → 2 ≤ (goSplitChar sep l).length := by
  intro l
  induction l with
  | nil => intro h; cases h
  | cons c cs ih =>
    intro hmem
    rw [goSplitChar]
    by_cases hc : c = sep
    · rw [if_pos hc]
      have := goSplitChar_ne_nil sep cs
      have : 0 < (goSplitChar sep cs).length := List.length_pos.mpr this
      simp only [List.length_cons]
      omega
    · rw [if_neg hc]
      have hcs : sep ∈ cs := by
        rcases List.mem_cons.mp hmem with h | h
        · exact absurd h.symm hc
        · exact h
      have h2 := ih hcs
      rcases hg : goSplitChar sep cs with _ | ⟨g, gs⟩
      · exact absurd hg (goSplitChar_ne_nil sep cs)
      · rw [hg] at h2
        simp only [List.length_cons] at h2 ⊢
        omega

lemma afterLastChar_of_not_mem (sep : Char) :
    ∀ l : List Char, sep ∉ l → afterLastChar sep l = l := by
  intro l
  cases l with
  | nil => intro _; rfl
  | cons c cs =>
    intro hmem
    have hc : ¬ c = sep := fun h => hmem (h ▸ List.mem_cons_self c cs)
    have hcs : sep ∉ cs := fun h => hmem (List.mem_cons_of_mem c h)
    rw [afterLastChar, if_neg hcs, if_neg hc]

lemma goSplitChar_getLast_opt (sep : Char) :
    ∀ l : List Char,
      (goSplitChar sep l).getLast? = some (afterLastChar sep l) := by
  intro l
  induction l with
  | nil => rfl
  | cons c cs ih =>
    by_cases hc : c = sep
    · have hsplit : goSplitChar sep (c :: cs) = [] :: goSplitChar sep cs := by
        rw [goSplitChar, if_pos hc]
      rcases hg : goSplitChar sep cs with _ | ⟨g, gs⟩
      · exact absurd hg (goSplitChar_ne_nil sep cs)
      · rw [afterLastChar]
        by_cases hmem : sep ∈ cs
        · rw [if_pos hmem, hsplit, hg, List.getLast?_cons_cons, ← hg, ih]
        · have hcs : goSplitChar sep cs = [cs] := goSplitChar_of_not_mem sep cs hmem
          rw [if_neg hmem, if_pos hc, hsplit, hcs]
          rfl
    · rcases hg : goSplitChar sep cs with _ | ⟨g, gs⟩
      · exact absurd hg (goSplitChar_ne_nil sep cs)
      · have hsplit : goSplitChar sep (c :: cs) = (c :: g) :: gs := by
          rw [goSplitChar, if_neg hc, hg]
        cases gs with
        | nil =>
          have hmem : sep ∉ cs := by
            intro hm
            have h2 := goSplitChar_two_le_of_mem sep cs hm
            rw [hg] at h2
            simp at h2
          have hcs : g = cs := by
            have h3 := goSplitChar_of_not_mem sep cs hmem
            rw [hg] at h3
            exact (List.cons_eq_cons.mp h3).1
          subst hcs
          rw [hsplit, afterLastChar, if_neg hmem, if_neg hc]
          rfl
        | cons g2 gs2 =>
          have hmem : sep ∈ cs := by
            by_contra hm
            have h3 := goSplitChar_of_not_mem sep cs hm
            rw [hg] at h3
            simp at h3
          rw [afterLastChar, if_pos hmem, hsplit, List.getLast?_cons_cons, ← ih, hg,
            List.getLast?_cons_cons]

lemma afterLastChar_decomp (sep : Char) :
    ∀ l : List Char, sep ∈ l →
      ∃ pre, l = pre ++ sep :: afterLastChar sep l ∧ sep ∉ afterLastChar sep l := by
  intro l
  induction l with
  | nil => intro h; cases h
  | cons c cs ih =>
    intro hmem
    by_cases hcs : sep ∈ cs
    · obtain ⟨pre, hpre, hnot⟩ := ih hcs
      refine ⟨c :: pre, ?_, ?_⟩
      · rw [afterLastChar, if_pos hcs]
        rw [List.cons_append]
        exact congrArg (c :: ·) hpre
      · rw [afterLastChar, if_pos hcs]
        exact hnot
    · have hc : c = sep := by
        rcases List.mem_cons.mp hmem with h | h
        · exact h.symm
        · exact absurd h hcs
      refine ⟨[], ?_, ?_⟩
      · rw [afterLastChar, if_neg hcs, if_pos hc, List.nil_append, hc]
      · rw [afterLastChar, if_neg hcs, if_pos hc]
        exact hcs

/-- C10: `zoneFromUrl` never takes its error branch: for every `url` it
returns `ok` of the suffix after the last `'/'` — equal to `url` itself
when `url` contains no `'/'`, and otherwise the unique slash-free suffix
preceded by a `'/'`. -/
theorem zoneFromUrl_never_errors (url : String) :
    zoneFromUrl url = .ok (afterLastSlash url) ∧
    ('/' ∉ url.data → afterLastSlash url = url) ∧
    ('/' ∈ url.data →
      ∃ pre, url.data = pre ++ '/' :: (afterLastSlash url).data ∧
        '/' ∉ (afterLastSlash url).data) := by
  refine ⟨?_, ?_, ?_⟩
  · rw [zoneFromUrl]
    have hne : goSplitChar '/' url.data ≠ [] := goSplitChar_ne_nil '/' url.data
    have hlen : ¬ (goSplitSlash url).length = 0 := by
      rw [goSplitSlash, List.length_map]
      exact fun h => hne (List.length_eq_zero.mp h)
    rw [dif_neg hlen]
    have hne2 : goSplitSlash url ≠ [] := fun h => hlen (by rw [h]; rfl)
    have hopt : (goSplitSlash url).getLast? = some (afterLastSlash url) := by
      rw [goSplitSlash, List.getLast?_map, goSplitChar_getLast_opt]
      rfl
    have hopt2 : (goSplitSlash url).getLast? =
        some ((goSplitSlash url).getLast hne2) :=
      List.getLast?_eq_getLast _ hne2
    have hlast : (goSplitSlash url).getLast hne2 = afterLastSlash url :=
      Option.some_injective _ (hopt2.symm.trans hopt)
    exact congrArg Except.ok hlast
  · intro hmem
    rw [afterLastSlash, afterLastChar_of_not_mem '/' url.data hmem]
  · intro hmem
    exact afterLastChar_decomp '/' url.data hmem

theorem zoneFromUrl_never_errors_witness :
    zoneFromUrl "projects/p1/zones/us-east1-b" = .ok "us-east1-b" ∧
    (∃ pre, "projects/p1/zones/us-east1-b".data = pre ++ '/' :: "us-east1-b".data ∧
      '/' ∉ "us-east1-b".data) ∧
    zoneFromUrl "no-slash-here" = .ok "no-slash-here" := by
  obtain ⟨h1, _, h3⟩ := zoneFromUrl_never_errors "projects/p1/zones/us-east1-b"
  obtain ⟨g1, g2, _⟩ := zoneFromUrl_never_errors "no-slash-here"
  have he : afterLastSlash "projects/p1/zones/us-east1-b" = "us-east1-b" := rfl
  have hg : afterLastSlash "no-slash-here" = "no-slash-here" := g2 (by decide)
  rw [he] at h1 h3
  rw [hg] at g1
  exact ⟨h1, h3 (by decide), g1⟩

/-- C3 (code bug): an unprotected instance created before the cutoff whose
region is in the excluded-region set is nevertheless returned by
`GetAllGceInstances`: the exclusion loop's `continue` only re-enters the
inner loop over `excludedRegions`, so the comment "skip if the region is
excluded" is not implemented and the filtered result contains an instance
whose region is in the excluded set. -/
theorem gce_excluded_region_instance_included :
    GetAllGceInstances (fun _ => .ok 0)
      ⟨[⟨"europe-west1", ["https://gcp/zones/europe-west1-b"]⟩]⟩
      ["europe-west1"] 10
      (.ok [[⟨"inst1", "https://gcp/zones/europe-west1-b", false, "t0"⟩]])
      = .ok [⟨"inst1", "europe-west1-b", "europe-west1"⟩] ∧
    "europe-west1" ∈ ["europe-west1"] :=
  ⟨rfl, by decide⟩

theorem awsNuke_validates_resource_types_witness :
    (awsNuke ["ami", "ec2"] (.ok ["us-east-1"]) (fun _ _ => .ok ["i-1"])
        [⟨"ec2", fun _ => true⟩] ["bogus"] []
      = ([], .error "Invalid resourceTypes specified")) ∧
    ((awsNuke ["ami", "ec2"] (.ok ["us-east-1"]) (fun _ _ => .ok ["i-1"])
        [⟨"ec2", fun _ => true⟩] ["ec2"] []).1.head? = some .describeRegions) :=
  ⟨(awsNuke_validates_resource_types ["ami", "ec2"] (.ok ["us-east-1"])
      (fun _ _ => .ok ["i-1"]) [⟨"ec2", fun _ => true⟩] ["bogus"] []).1
      ⟨"bogus", by decide, by decide, by decide⟩,
   (awsNuke_validates_resource_types ["ami", "ec2"] (.ok ["us-east-1"])
      (fun _ _ => .ok ["i-1"]) [⟨"ec2", fun _ => true⟩] ["ec2"] []).2
      (by decide)⟩

end CloudNuke
